import Mathlib

/-!
Verification of the CIS (Community Intercomparison Suite) core algorithms:
the longitude-range normalizer `GriddedData.set_longitude_range` from
`cis/data_io/gridded_data.py`, and the partial-datetime / duration parsing
functions from `cis/parse_datetime.py`.

The embedding is shallow: numpy arrays become Lean lists, Python floats
become exact rationals (`ℚ`), Python strings become `List Char`, and
functions that may raise become `Option`- or `Except`-valued functions.
-/

namespace CIS

/-! ## Longitude normalization (`gridded_data.py`)

The data array of a cube is modelled as a list of slabs indexed along the
longitude dimension (rolling the array along the longitude axis is rolling
that list).  An auxiliary coordinate is likewise a list of slabs along its
longitude-aligned axis, together with a flag recording whether the
longitude data dimension is among the dimensions it spans. -/

/-- The longitude dimension coordinate: its points and optional bounds
(one `(lower, upper)` pair per point, axis 0 of the numpy bounds array). -/
structure LonCoord where
  points : List ℚ
  bounds : Option (List (ℚ × ℚ))
deriving DecidableEq, Repr

/-- An auxiliary coordinate: `spansLon` records whether the longitude data
dimension occurs among the dimensions the coordinate spans; `points` is the
coordinate array presented as slabs along its longitude-aligned axis. -/
structure AuxCoord (β : Type) where
  spansLon : Bool
  points : List β
deriving DecidableEq, Repr

/-- A gridded field (cube): the longitude dimension coordinate when one with
standard name `longitude` exists, the auxiliary coordinates, and the data
array presented as slabs along the longitude dimension. -/
structure GriddedField (α β : Type) where
  lon : Option LonCoord
  auxCoords : List (AuxCoord β)
  data : List α
deriving DecidableEq, Repr

/-- `np.searchsorted(a, v)` (side `left`) on a sorted array `a`: the index
at which `v` would be inserted, i.e. the number of elements `< v`. -/
def searchsorted (a : List ℚ) (v : ℚ) : ℕ :=
  a.countP (fun p => decide (p < v))

/-- `np.roll(a, s)` along the list axis: element `i` moves to `(i + s) % n`,
so the result is `a` rotated left by `(-s) mod n`. -/
def nproll {γ : Type} (a : List γ) (s : ℤ) : List γ :=
  a.rotate (Int.toNat ((-s) % (a.length : ℤ)))

/-- Shallow embedding of `GriddedData.set_longitude_range` (in-place mutation
becomes a returned updated field).  Structure follows the source: locate the
longitude coordinate (no-op when absent), compute the insertion points of
`range_start` and `range_start + 360`, roll and wrap points (and bounds,
masked by the same point test) in one of the two cases, then, when the shift
is non-zero, roll the longitude-spanning auxiliary coordinates and the data
and write everything back. -/
def set_longitude_range {α β : Type} (f : GriddedField α β) (range_start : ℚ) :
    GriddedField α β :=
  match f.lon with
  | none => f
  | some lon_coord =>
    let n := lon_coord.points.length
    let roll_bounds := match lon_coord.bounds with
      | some b => !b.isEmpty
      | none => false
    let idx1 := searchsorted lon_coord.points range_start
    let idx2 := searchsorted lon_coord.points (range_start + 360)
    let res : ℤ × Option (List ℚ) × Option (List (ℚ × ℚ)) :=
      if 0 < idx1 ∧ idx1 < n then
        let shift : ℤ := -(idx1 : ℤ)
        let lon_min := lon_coord.points.getD idx1 0
        let rolled := nproll lon_coord.points shift
        let new_lon_points := rolled.map (fun p => if p < lon_min then p + 360 else p)
        let new_lon_bounds :=
          if roll_bounds then
            some (List.zipWith
              (fun p b => if p < lon_min then (b.1 + 360, b.2 + 360) else b)
              rolled (nproll (lon_coord.bounds.getD []) shift))
          else none
        (shift, some new_lon_points, new_lon_bounds)
      else if 0 < idx2 ∧ idx2 < n then
        let shift : ℤ := (n : ℤ) - (idx2 : ℤ)
        let lon_max := lon_coord.points.getD idx2 0
        let rolled := nproll lon_coord.points shift
        let new_lon_points := rolled.map (fun p => if lon_max ≤ p then p - 360 else p)
        let new_lon_bounds :=
          if roll_bounds then
            some (List.zipWith
              (fun p b => if lon_max ≤ p then (b.1 - 360, b.2 - 360) else b)
              rolled (nproll (lon_coord.bounds.getD []) shift))
          else none
        (shift, some new_lon_points, new_lon_bounds)
      else ((0 : ℤ), none, none)
    match res with
    | (shift, new_lon_points, new_lon_bounds) =>
      if shift ≠ 0 then
        { lon := some { points := new_lon_points.getD lon_coord.points,
                        bounds := if roll_bounds then new_lon_bounds else lon_coord.bounds },
          auxCoords := f.auxCoords.map (fun ac =>
            if ac.spansLon then { ac with points := nproll ac.points shift } else ac),
          data := nproll f.data shift }
      else f

/-- The longitude points of a field (empty when there is no longitude
coordinate). -/
def lonPoints {α β : Type} (f : GriddedField α β) : List ℚ :=
  match f.lon with
  | some lc => lc.points
  | none => []

example :
    set_longitude_range (α := ℚ) (β := ℚ)
      ⟨some ⟨[-170, -10, 10, 170], none⟩, [], [0, 1, 2, 3]⟩ 0 =
      ⟨some ⟨[10, 170, 190, 350], none⟩, [], [2, 3, 0, 1]⟩ := by
  norm_num [set_longitude_range, searchsorted, nproll, List.countP_cons, List.rotate,
    Int.toNat]

/-! ## Datetime and duration parsing (`parse_datetime.py`)

Python strings are `List Char`; functions that raise `ValueError` are
`Option`-valued (`none` = exception). -/

/-- The separator class `[T :]` shared by the partial-datetime regex and the
duration regex: `T`, space or colon. -/
def isSep (c : Char) : Bool := c = 'T' || c = ' ' || c = ':'

/-- Numeric value of a digit string (most significant digit first). -/
def pyNatVal (cs : List Char) : ℕ :=
  cs.foldl (fun n c => 10 * n + (c.toNat - 48)) 0

/-- Python `int(s)` on an unsigned string: a non-empty run of ASCII digits.
(The embedding models the ASCII core of `int`; underscore separators,
surrounding whitespace and non-ASCII digits are not modelled — the inputs
of interest never contain them.) -/
def pyNat (cs : List Char) : Option ℕ :=
  if cs ≠ [] ∧ cs.all Char.isDigit then some (pyNatVal cs) else none

/-- Python `int(s)`: an optional sign followed by a non-empty digit run;
`none` models the `ValueError` raised on anything else. -/
def pyInt : List Char → Option ℤ
  | '+' :: ds => (pyNat ds).map (fun n => (n : ℤ))
  | '-' :: ds => (pyNat ds).map (fun n => -(n : ℤ))
  | cs => (pyNat cs).map (fun n => (n : ℤ))

/-- Python `s.split(sep)` for a one-character separator: every occurrence
splits, empty pieces are kept, and the split of the empty string is
`[""]`. -/
def splitOnChar (sep : Char) : List Char → List (List Char)
  | [] => [[]]
  | c :: rest =>
    if c = sep then [] :: splitOnChar sep rest
    else
      match splitOnChar sep rest with
      | h :: t => (c :: h) :: t
      | [] => [[c]]

/-- The external `PartialDateTime(year, month, day, hour, minute, second)`
value: positional components, each either given or unspecified. -/
structure PartialDateTime where
  year : Option ℤ
  month : Option ℤ
  day : Option ℤ
  hour : Option ℤ
  minute : Option ℤ
  second : Option ℤ
deriving DecidableEq, Repr

/-- `PartialDateTime(*dt_components)`: the positional components in order,
trailing ones left unspecified. -/
def PartialDateTime.ofComponents (l : List ℤ) : PartialDateTime :=
  ⟨l.get? 0, l.get? 1, l.get? 2, l.get? 3, l.get? 4, l.get? 5⟩

/-- The regex split of `_parse_partial_datetime`:
`re.match(r'(?P<date>[^T :]+)(?:[T :])(?P<time>.+)$', s)` separates the
date part from the time part at the first `T`/space/colon; the match
succeeds exactly when the part before the first separator and the part
after it are both non-empty.  On success the time part is split on `:`;
otherwise the whole string is the date part and there are no time tokens.
(`.` is modelled as matching any character; the inputs of interest contain
no newline.) -/
def pdtSplit (cs : List Char) : List Char × List (List Char) :=
  let date := cs.takeWhile (fun c => !isSep c)
  let rest := cs.dropWhile (fun c => !isSep c)
  if date ≠ [] ∧ 2 ≤ rest.length then (date, splitOnChar ':' rest.tail)
  else (cs, [])

/-- The list comprehension `[int(x) for x in tokens]`: all tokens converted
to integers, `none` when any single conversion raises. -/
def pyIntList : List (List Char) → Option (List ℤ)
  | [] => some []
  | t :: rest =>
    match pyInt t, pyIntList rest with
    | some v, some vs => some (v :: vs)
    | _, _ => none

/-- Shallow embedding of `_parse_partial_datetime`: split into date/time
parts, convert each token with `int` (`none` on failure), apply the
component-count validity rule, and build the `PartialDateTime` from the
concatenated components. -/
def _parse_partial_datetime (cs : List Char) : Option PartialDateTime :=
  let ps := pdtSplit cs
  match pyIntList (splitOnChar '-' ps.1), pyIntList ps.2 with
  | some date_components, some time_components =>
    if date_components.length > 3 ∨ time_components.length > 3 ∨
        (date_components.length < 3 ∧ time_components.length > 0) then
      none
    else
      some (PartialDateTime.ofComponents (date_components ++ time_components))
  | _, _ => none

/-- The named tuple `date_delta(year, month, day, hour, minute, second)`. -/
structure date_delta where
  year : ℤ
  month : ℤ
  day : ℤ
  hour : ℤ
  minute : ℤ
  second : ℤ
deriving DecidableEq, Repr

/-- `date_delta_creator`. -/
def date_delta_creator (year month day hour minute second : ℤ) : date_delta :=
  ⟨year, month, day, hour, minute, second⟩

/-- The character class `[A-Z]`. -/
def isUpperLetter (c : Char) : Bool := 'A' ≤ c && c ≤ 'Z'

/-- Left-to-right scan implementing `re.findall('[0-9]*[A-Z]', s)`:
`cur` accumulates the digit run preceding the current position.  A match of
the pattern is a maximal digit run immediately followed by an uppercase
letter, so the leftmost-first non-overlapping matches are exactly the
tokens this scan emits. -/
def findTokensAux : List Char → List Char → List (List Char)
  | _, [] => []
  | cur, c :: rest =>
    if c.isDigit then findTokensAux (cur ++ [c]) rest
    else if isUpperLetter c then (cur ++ [c]) :: findTokensAux [] rest
    else findTokensAux [] rest

/-- `re.findall('[0-9]*[A-Z]', s)`. -/
def findTokens (cs : List Char) : List (List Char) := findTokensAux [] cs

/-- One token loop of `_parse_datetime_delta` (the date and time loops are
the same up to unit letters): for each token, convert `token[:-1]` with
`int` (failure propagates), then dispatch `token[-1:]` through the
`if`/`elif`/`elif`/`else raise` chain to the field for `u1`/`u2`/`u3`,
overwriting any earlier value for that field. -/
def dispatchTokens (u1 u2 u3 : Char) :
    List (List Char) → ℤ → ℤ → ℤ → Option (ℤ × ℤ × ℤ)
  | [], a, b, c => some (a, b, c)
  | t :: rest, a, b, c =>
    match pyInt t.dropLast, t.getLast? with
    | some val, some u =>
      if u = u1 then dispatchTokens u1 u2 u3 rest val b c
      else if u = u2 then dispatchTokens u1 u2 u3 rest a val c
      else if u = u3 then dispatchTokens u1 u2 u3 rest a b val
      else none
    | _, _ => none

/-- The date-token loop of `_parse_datetime_delta` (`Y`/`M`/`D`). -/
def procDate (toks : List (List Char)) (years months days : ℤ) : Option (ℤ × ℤ × ℤ) :=
  dispatchTokens 'Y' 'M' 'D' toks years months days

/-- The time-token loop of `_parse_datetime_delta` (`H`/`M`/`S`). -/
def procTime (toks : List (List Char)) (hours minutes seconds : ℤ) :
    Option (ℤ × ℤ × ℤ) :=
  dispatchTokens 'H' 'M' 'S' toks hours minutes seconds

/-- Success condition of the duration regex
`(?:[P])(?P<date>[^T :]+)?(?:[T :])?(?P<time>.+)?$` on the part after `P`.
The date group takes the maximal `[^T :]`-prefix (newlines belong to the
negated class, so they may appear inside it).  When no separator follows,
`$` accepts at the end of the string.  When a separator follows, the time
group `.+` cannot cover a newline and `$` only matches at the very end or
just before a newline that is the last character, so the match succeeds
exactly when the first newline after the separator, if any, is the final
character; backtracking into a shorter date group or a skipped separator
cannot rescue a failing match, because every alternative still has to end
at that same non-final newline. -/
def durationSplitOk (body : List Char) : Bool :=
  match body.dropWhile (fun c => !isSep c) with
  | [] => true
  | _ :: tl => decide (tl.length ≤ (tl.takeWhile (fun c => c ≠ '\n')).length + 1)

/-- Shallow embedding of `_parse_datetime_delta`: uppercase, require a
leading `P`, and apply the regex
`(?:[P])(?P<date>[^T :]+)?(?:[T :])?(?P<time>.+)?$`: the date group is the
maximal separator-free prefix of the part after `P`; when a separator
follows, the match fails (`re.match` returns `None` and the source raises
`ValueError`) unless the first newline in the remainder is the string's
final character (`durationSplitOk`), and the time group binds the
newline-free prefix of that remainder.  The halves are tokenized with
`findTokens` and run through the two dispatch loops. -/
def _parse_datetime_delta (cs : List Char) : Option date_delta :=
  match cs.map Char.toUpper with
  | 'P' :: body =>
    if durationSplitOk body then
      let date_string := body.takeWhile (fun c => !isSep c)
      let time_string :=
        ((body.dropWhile (fun c => !isSep c)).tail).takeWhile (fun c => c ≠ '\n')
      match procDate (findTokens date_string) 0 0 0 with
      | none => none
      | some (years, months, days) =>
        match procTime (findTokens time_string) 0 0 0 with
        | none => none
        | some (hours, minutes, seconds) =>
          some (date_delta_creator years months days hours minutes seconds)
    else none
  | _ => none

/-- Shallow embedding of `_datetime_delta_to_float_days`, in exact rational
arithmetic: `365.2425` is the exact rational `3652425/10000` and
`timedelta(days, hours, minutes, seconds).total_seconds()` is the exact
sum of the contributions in seconds. -/
def _datetime_delta_to_float_days (delta : date_delta) : ℚ :=
  let sec : ℚ := 1 / (24 * 60 * 60)
  let days : ℚ := (delta.day : ℚ) + (delta.month : ℚ) * (3652425 / 10000) / 12 +
    (delta.year : ℚ) * (3652425 / 10000)
  let total_seconds : ℚ :=
    days * 86400 + (delta.hour : ℚ) * 3600 + (delta.minute : ℚ) * 60 + (delta.second : ℚ)
  total_seconds * sec

/-- Shallow embedding of `parse_datetimestr_delta_to_float_days`. -/
def parse_datetimestr_delta_to_float_days (cs : List Char) : Option ℚ :=
  (_parse_datetime_delta cs).map _datetime_delta_to_float_days

/-- Python exceptions that escape the number-or-datetime coercion layer. -/
inductive PyExc where
  | nameError : String → PyExc
  | argumentTypeError : String → PyExc
deriving DecidableEq, Repr

/-- Shallow embedding of `parse_as_number_or_datetime`.  The first statement
of the body is `if in_string == 'None' or in_string is None:` but the
function's parameter is named `string` and no `in_string` is in scope, so
every call raises `NameError` before any parsing is attempted; the
remainder of the body (the int/float/datetime attempts) is unreachable. -/
def parse_as_number_or_datetime (string : List Char) : Except PyExc ℚ :=
  Except.error (PyExc.nameError "in_string")

/-! ## Helper lemmas for the longitude normalizer -/

/-- For a strictly sorted list, the elements `< v` form the `takeWhile`
prefix (so `searchsorted` is its length) and everything in the `dropWhile`
suffix is `≥ v`. -/
lemma sorted_split (v : ℚ) :
    ∀ (l : List ℚ), l.Pairwise (· < ·) →
      l.countP (fun p => decide (p < v)) =
        (l.takeWhile (fun p => decide (p < v))).length ∧
      ∀ x ∈ l.dropWhile (fun p => decide (p < v)), v ≤ x := by
  intro l
  induction l with
  | nil => intro _; simp
  | cons a t ih =>
    intro hl
    rcases List.pairwise_cons.mp hl with ⟨ha, ht⟩
    rcases ih ht with ⟨ih1, ih2⟩
    by_cases hav : a < v
    · constructor
      · simp [List.countP_cons, hav, ih1, List.takeWhile_cons]
      · intro x hx
        rw [List.dropWhile_cons] at hx
        simp only [hav] at hx
        exact ih2 x (by simpa using hx)
    · have hallt : ∀ x ∈ a :: t, ¬ x < v := by
        intro x hx
        rcases List.mem_cons.mp hx with rfl | hxt
        · exact hav
        · exact fun hxv => hav (lt_trans (ha x hxt) hxv)
      constructor
      · rw [List.countP_eq_zero.mpr (by simpa using hallt)]
        rw [List.takeWhile_cons]
        simp [hav]
      · intro x hx
        rw [List.dropWhile_cons] at hx
        simp only [hav] at hx
        rcases List.mem_cons.mp (by simpa using hx) with rfl | hxt
        · exact le_of_not_lt hav
        · exact le_of_lt (lt_of_le_of_lt (le_of_not_lt hav) (ha x hxt))

lemma nproll_neg_eq_rotate {γ : Type} (l : List γ) (k : ℕ) (hk : k < l.length) :
    nproll l (-(k : ℤ)) = l.rotate k := by
  unfold nproll
  rw [neg_neg]
  rw [Int.emod_eq_of_lt (by exact_mod_cast Nat.zero_le k) (by exact_mod_cast hk)]
  rw [Int.toNat_natCast]

lemma nproll_sub_eq_rotate {γ : Type} (l : List γ) (k : ℕ) (hk : k < l.length) :
    nproll l ((l.length : ℤ) - (k : ℤ)) = l.rotate k := by
  unfold nproll
  have h1 : -((l.length : ℤ) - (k : ℤ)) = (k : ℤ) + (l.length : ℤ) * (-1) := by ring
  rw [h1, Int.add_mul_emod_self_left]
  rw [Int.emod_eq_of_lt (by exact_mod_cast Nat.zero_le k) (by exact_mod_cast hk)]
  rw [Int.toNat_natCast]

lemma getD_append_length (A : List ℚ) (b : ℚ) (B : List ℚ) :
    (A ++ b :: B).getD A.length 0 = b := by
  induction A with
  | nil => rfl
  | cons a t ih => simpa using ih

/-- Unfolding lemma: when the longitude coordinate exists and
`0 < idx1 < n` (case A of the source), the new longitude points are the
points rolled by `-idx1` with every value below the pivot shifted up by
360. -/
lemma lonPoints_slr_caseA {α β : Type} (f : GriddedField α β) (r : ℚ) (lc : LonCoord)
    (hl : f.lon = some lc) (h1 : 0 < searchsorted lc.points r)
    (h2 : searchsorted lc.points r < lc.points.length) :
    lonPoints (set_longitude_range f r) =
      (nproll lc.points (-(searchsorted lc.points r : ℤ))).map
        (fun p => if p < lc.points.getD (searchsorted lc.points r) 0 then p + 360 else p) := by
  have hs : -(searchsorted lc.points r : ℤ) ≠ 0 := by omega
  simp only [set_longitude_range, hl]
  rw [if_pos (show 0 < searchsorted lc.points r ∧
    searchsorted lc.points r < lc.points.length from ⟨h1, h2⟩)]
  rw [if_pos hs]
  simp [lonPoints]

/-- Unfolding lemma: when the longitude coordinate exists, case A does not
apply and `0 < idx2 < n` (case B of the source), the new longitude points
are the points rolled by `n - idx2` with every value at or above the pivot
shifted down by 360. -/
lemma lonPoints_slr_caseB {α β : Type} (f : GriddedField α β) (r : ℚ) (lc : LonCoord)
    (hl : f.lon = some lc)
    (hA : ¬(0 < searchsorted lc.points r ∧ searchsorted lc.points r < lc.points.length))
    (h1 : 0 < searchsorted lc.points (r + 360))
    (h2 : searchsorted lc.points (r + 360) < lc.points.length) :
    lonPoints (set_longitude_range f r) =
      (nproll lc.points ((lc.points.length : ℤ) - (searchsorted lc.points (r + 360) : ℤ))).map
        (fun p => if lc.points.getD (searchsorted lc.points (r + 360)) 0 ≤ p then p - 360
          else p) := by
  have hs : (lc.points.length : ℤ) - (searchsorted lc.points (r + 360) : ℤ) ≠ 0 := by omega
  simp only [set_longitude_range, hl]
  rw [if_neg hA, if_pos (show 0 < searchsorted lc.points (r + 360) ∧
    searchsorted lc.points (r + 360) < lc.points.length from ⟨h1, h2⟩)]
  rw [if_pos hs]
  simp [lonPoints]

/-- Unfolding lemma: when neither case applies, the shift stays `0` and the
field is returned unchanged. -/
lemma slr_caseC {α β : Type} (f : GriddedField α β) (r : ℚ) (lc : LonCoord)
    (hl : f.lon = some lc)
    (hA : ¬(0 < searchsorted lc.points r ∧ searchsorted lc.points r < lc.points.length))
    (hB : ¬(0 < searchsorted lc.points (r + 360) ∧
        searchsorted lc.points (r + 360) < lc.points.length)) :
    set_longitude_range f r = f := by
  simp only [set_longitude_range, hl]
  rw [if_neg hA, if_neg hB]
  simp

/-! ## Claims about the longitude normalizer -/

/-- Claim C1 (amended): for a `GriddedField` whose longitude dimension
coordinate has strictly increasing points spanning less than 360 degrees,
and any `range_start` such that at least one longitude point already lies
in `[range_start, range_start + 360)`, after `set_longitude_range` every
longitude point `p` satisfies `range_start ≤ p < range_start + 360`. -/
theorem set_longitude_range_window_invariant {α β : Type} (f : GriddedField α β)
    (r : ℚ) (lc : LonCoord) (hl : f.lon = some lc)
    (hmono : lc.points.Pairwise (· < ·))
    (hspan : ∀ p ∈ lc.points, ∀ q ∈ lc.points, q - p < 360)
    (hwit : ∃ p ∈ lc.points, r ≤ p ∧ p < r + 360) :
    ∀ p ∈ lonPoints (set_longitude_range f r), r ≤ p ∧ p < r + 360 := by
  obtain ⟨w, hwmem, hwlo, hwhi⟩ := hwit
  have htake1 : ∀ x ∈ lc.points.takeWhile (fun p => decide (p < r)), x < r := by
    intro x hx; simpa using List.mem_takeWhile_imp hx
  have htake2 : ∀ x ∈ lc.points.takeWhile (fun p => decide (p < r + 360)), x < r + 360 := by
    intro x hx; simpa using List.mem_takeWhile_imp hx
  have hAB1 : lc.points.takeWhile (fun p => decide (p < r)) ++
      lc.points.dropWhile (fun p => decide (p < r)) = lc.points := by simp
  have hAB2 : lc.points.takeWhile (fun p => decide (p < r + 360)) ++
      lc.points.dropWhile (fun p => decide (p < r + 360)) = lc.points := by simp
  have hss1 : searchsorted lc.points r =
      (lc.points.takeWhile (fun p => decide (p < r))).length :=
    (sorted_split r lc.points hmono).1
  have hdrop1 := (sorted_split r lc.points hmono).2
  have hss2 : searchsorted lc.points (r + 360) =
      (lc.points.takeWhile (fun p => decide (p < r + 360))).length :=
    (sorted_split (r + 360) lc.points hmono).1
  have hdrop2 := (sorted_split (r + 360) lc.points hmono).2
  by_cases hc1 : 0 < searchsorted lc.points r ∧
      searchsorted lc.points r < lc.points.length
  · -- Case A of the source: the lower window edge falls inside the points.
    obtain ⟨h1, h2⟩ := hc1
    have hlenAB := congrArg List.length hAB1
    rw [List.length_append] at hlenAB
    have hBne : lc.points.dropWhile (fun p => decide (p < r)) ≠ [] := by
      intro hB0
      rw [hB0] at hlenAB
      simp at hlenAB
      omega
    have hAne : lc.points.takeWhile (fun p => decide (p < r)) ≠ [] := by
      intro hA0
      rw [hA0] at hss1
      simp at hss1
      omega
    obtain ⟨b, B, hB⟩ := List.exists_cons_of_ne_nil hBne
    obtain ⟨a, A, hA⟩ := List.exists_cons_of_ne_nil hAne
    have hpairB : (lc.points.dropWhile (fun p => decide (p < r))).Pairwise (· < ·) := by
      have h := hmono
      rw [← hAB1] at h
      exact (List.pairwise_append.mp h).2.1
    have hbmem : b ∈ lc.points := by
      rw [← hAB1, hB]
      exact List.mem_append_right _ (List.mem_cons_self b B)
    have hamem : a ∈ lc.points := by
      rw [← hAB1, hA]
      exact List.mem_append_left _ (List.mem_cons_self a A)
    have hrb : r ≤ b := hdrop1 b (by rw [hB]; exact List.mem_cons_self b B)
    have har : a < r := htake1 a (by rw [hA]; exact List.mem_cons_self a A)
    have hrot : lc.points.rotate (searchsorted lc.points r) =
        lc.points.dropWhile (fun p => decide (p < r)) ++
          lc.points.takeWhile (fun p => decide (p < r)) := by
      have h := List.rotate_append_length_eq
        (lc.points.takeWhile (fun p => decide (p < r)))
        (lc.points.dropWhile (fun p => decide (p < r)))
      rw [hAB1, ← hss1] at h
      exact h
    have hgetD : lc.points.getD (searchsorted lc.points r) 0 = b := by
      have h := getD_append_length (lc.points.takeWhile (fun p => decide (p < r))) b B
      rw [← hB, hAB1, ← hss1] at h
      exact h
    rw [lonPoints_slr_caseA f r lc hl h1 h2,
      nproll_neg_eq_rotate lc.points (searchsorted lc.points r) h2, hrot, hgetD]
    intro p hp
    rw [List.mem_map] at hp
    obtain ⟨x, hx, rfl⟩ := hp
    rcases List.mem_append.mp hx with hxB | hxA
    · -- x comes from the dropWhile part: not masked, stays put.
      have hbx : b ≤ x := by
        rw [hB] at hxB
        rcases List.mem_cons.mp hxB with rfl | hxB'
        · exact le_refl x
        · rw [hB] at hpairB
          exact le_of_lt ((List.pairwise_cons.mp hpairB).1 x hxB')
      have hxmem : x ∈ lc.points := by
        rw [← hAB1]; exact List.mem_append_right _ hxB
      rw [if_neg (not_lt.mpr hbx)]
      refine ⟨le_trans hrb hbx, ?_⟩
      have := hspan a hamem x hxmem
      linarith
    · -- x comes from the takeWhile part: masked, shifted up by 360.
      have hxr : x < r := htake1 x hxA
      have hxmem : x ∈ lc.points := by
        rw [← hAB1]; exact List.mem_append_left _ hxA
      rw [if_pos (lt_of_lt_of_le hxr hrb)]
      constructor
      · have := hspan x hxmem b hbmem
        linarith
      · linarith
  · have hle1 : searchsorted lc.points r ≤ lc.points.length :=
      List.countP_le_length _
    have hc1' := hc1
    push_neg at hc1'
    rcases Nat.eq_zero_or_pos (searchsorted lc.points r) with hz | hpos
    swap
    · -- idx1 = n: every point is below the window, contradicting the witness.
      have hn : searchsorted lc.points r = lc.points.length :=
        le_antisymm hle1 (hc1' hpos)
      have hall : ∀ p ∈ lc.points, p < r := by
        intro p hp
        have := List.countP_eq_length.mp hn p hp
        simpa using this
      exact absurd (hall w hwmem) (not_lt.mpr hwlo)
    · have hge : ∀ p ∈ lc.points, r ≤ p := by
        intro p hp
        have := List.countP_eq_zero.mp hz p hp
        simpa using le_of_not_lt (by simpa using this)
      by_cases hc2 : 0 < searchsorted lc.points (r + 360) ∧
          searchsorted lc.points (r + 360) < lc.points.length
      · -- Case B of the source: the upper window edge falls inside the points.
        obtain ⟨g1, g2⟩ := hc2
        have hlenAB := congrArg List.length hAB2
        rw [List.length_append] at hlenAB
        have hBne : lc.points.dropWhile (fun p => decide (p < r + 360)) ≠ [] := by
          intro hB0
          rw [hB0] at hlenAB
          simp at hlenAB
          omega
        have hAne : lc.points.takeWhile (fun p => decide (p < r + 360)) ≠ [] := by
          intro hA0
          rw [hA0] at hss2
          simp at hss2
          omega
        obtain ⟨b, B, hB⟩ := List.exists_cons_of_ne_nil hBne
        obtain ⟨a, A, hA⟩ := List.exists_cons_of_ne_nil hAne
        have hpairB : (lc.points.dropWhile (fun p => decide (p < r + 360))).Pairwise
            (· < ·) := by
          have h := hmono
          rw [← hAB2] at h
          exact (List.pairwise_append.mp h).2.1
        have hamem : a ∈ lc.points := by
          rw [← hAB2, hA]
          exact List.mem_append_left _ (List.mem_cons_self a A)
        have hrb : r + 360 ≤ b := hdrop2 b (by rw [hB]; exact List.mem_cons_self b B)
        have har : a < r + 360 := htake2 a (by rw [hA]; exact List.mem_cons_self a A)
        have hrot : lc.points.rotate (searchsorted lc.points (r + 360)) =
            lc.points.dropWhile (fun p => decide (p < r + 360)) ++
              lc.points.takeWhile (fun p => decide (p < r + 360)) := by
          have h := List.rotate_append_length_eq
            (lc.points.takeWhile (fun p => decide (p < r + 360)))
            (lc.points.dropWhile (fun p => decide (p < r + 360)))
          rw [hAB2, ← hss2] at h
          exact h
        have hgetD : lc.points.getD (searchsorted lc.points (r + 360)) 0 = b := by
          have h := getD_append_length
            (lc.points.takeWhile (fun p => decide (p < r + 360))) b B
          rw [← hB, hAB2, ← hss2] at h
          exact h
        rw [lonPoints_slr_caseB f r lc hl hc1 g1 g2,
          nproll_sub_eq_rotate lc.points (searchsorted lc.points (r + 360)) g2, hrot, hgetD]
        intro p hp
        rw [List.mem_map] at hp
        obtain ⟨x, hx, rfl⟩ := hp
        rcases List.mem_append.mp hx with hxB | hxA
        · -- x comes from the dropWhile part: masked, shifted down by 360.
          have hbx : b ≤ x := by
            rw [hB] at hxB
            rcases List.mem_cons.mp hxB with rfl | hxB'
            · exact le_refl x
            · rw [hB] at hpairB
              exact le_of_lt ((List.pairwise_cons.mp hpairB).1 x hxB')
          have hxmem : x ∈ lc.points := by
            rw [← hAB2]; exact List.mem_append_right _ hxB
          rw [if_pos hbx]
          constructor
          · linarith
          · have := hspan a hamem x hxmem
            linarith
        · -- x comes from the takeWhile part: below the pivot, stays put.
          have hxr : x < r + 360 := htake2 x hxA
          have hxmem : x ∈ lc.points := by
            rw [← hAB2]; exact List.mem_append_left _ hxA
          rw [if_neg (not_le.mpr (lt_of_lt_of_le hxr hrb))]
          exact ⟨hge x hxmem, hxr⟩
      · -- Neither case fires: the field is returned unchanged, and the
        -- witness forces every point to lie in the window already.
        rw [slr_caseC f r lc hl hc1 hc2]
        have hle2 : searchsorted lc.points (r + 360) ≤ lc.points.length :=
          List.countP_le_length _
        have hc2' := hc2
        push_neg at hc2'
        rcases Nat.eq_zero_or_pos (searchsorted lc.points (r + 360)) with hz2 | hpos2
        · -- idx2 = 0: every point is at or above the upper edge,
          -- contradicting the witness.
          have hge2 : ∀ p ∈ lc.points, r + 360 ≤ p := by
            intro p hp
            have := List.countP_eq_zero.mp hz2 p hp
            simpa using le_of_not_lt (by simpa using this)
          exact absurd (hge2 w hwmem) (not_le.mpr hwhi)
        · have hn2 : searchsorted lc.points (r + 360) = lc.points.length :=
            le_antisymm hle2 (hc2' hpos2)
          have hall2 : ∀ p ∈ lc.points, p < r + 360 := by
            intro p hp
            have := List.countP_eq_length.mp hn2 p hp
            simpa using this
          intro p hp
          have hpmem : p ∈ lc.points := by
            simpa [lonPoints, hl] using hp
          exact ⟨hge p hpmem, hall2 p hpmem⟩

/-- Witness for C1 (amended): the concrete field with longitude points
`[-170, -10, 10, 170]` and `range_start = 0` satisfies the hypotheses, and
the conclusion holds for it. -/
theorem set_longitude_range_window_invariant_witness :
    (lonPoints (set_longitude_range (α := ℚ) (β := ℚ)
      ⟨some ⟨[-170, -10, 10, 170], none⟩, [], [1, 2, 3, 4]⟩ 0)).all
      (fun p => decide (0 ≤ p ∧ p < 0 + 360)) = true := by
  rw [List.all_eq_true]
  intro p hp
  exact decide_eq_true
    (set_longitude_range_window_invariant _ 0 ⟨[-170, -10, 10, 170], none⟩ rfl
      (by decide)
      (by intro x hx q hq; fin_cases hx <;> fin_cases hq <;> norm_num)
      ⟨10, by norm_num, by norm_num, by norm_num⟩ p hp)

/-- Claim C1 as stated is false: with the strictly increasing longitude
points `[0, 90, 180, 270]` and `range_start = 360`, neither rotation case
fires, the points are left unchanged, and they all violate
`360 ≤ p < 720`. -/
theorem set_longitude_range_invariant_counterexample :
    List.Pairwise (· < ·) ([0, 90, 180, 270] : List ℚ) ∧
    ¬ (∀ p ∈ lonPoints (set_longitude_range (α := ℚ) (β := ℚ)
        ⟨some ⟨[0, 90, 180, 270], none⟩, [], [1, 2, 3, 4]⟩ 360),
        360 ≤ p ∧ p < 360 + 360) := by
  constructor
  · decide
  · intro hforall
    have hid : set_longitude_range (α := ℚ) (β := ℚ)
        ⟨some ⟨[0, 90, 180, 270], none⟩, [], [1, 2, 3, 4]⟩ 360 =
        ⟨some ⟨[0, 90, 180, 270], none⟩, [], [1, 2, 3, 4]⟩ := by
      norm_num [set_longitude_range, searchsorted, List.countP_cons]
    rw [hid] at hforall
    have h0 := hforall 0 (by norm_num [lonPoints])
    norm_num at h0

/-- Claim C2: on longitude points `[-170, -10, 10, 170]` with
`range_start = 0`, the points become `[10, 170, 190, 350]` and the data is
rolled by the same shift of `-2`, keeping each data value paired with its
original longitude. -/
theorem set_longitude_range_concrete_rotation {α : Type} (a b c d : α) :
    set_longitude_range (β := ℚ)
        ⟨some ⟨[-170, -10, 10, 170], none⟩, [], [a, b, c, d]⟩ 0 =
      ⟨some ⟨[10, 170, 190, 350], none⟩, [], [c, d, a, b]⟩ ∧
    [c, d, a, b] = nproll [a, b, c, d] (-2) := by
  constructor
  · norm_num [set_longitude_range, searchsorted, nproll, List.countP_cons,
      List.rotate, Int.toNat]
  · norm_num [nproll, List.rotate, Int.toNat]

/-- Claim C3: when every longitude point already satisfies
`range_start ≤ p < range_start + 360`, `set_longitude_range` returns the
field completely unchanged (shift stays 0, nothing is mutated). -/
theorem set_longitude_range_already_in_range {α β : Type} (f : GriddedField α β)
    (r : ℚ) (lc : LonCoord) (hl : f.lon = some lc)
    (hmono : lc.points.Pairwise (· < ·))
    (hin : ∀ p ∈ lc.points, r ≤ p ∧ p < r + 360) :
    set_longitude_range f r = f := by
  have h1 : searchsorted lc.points r = 0 :=
    List.countP_eq_zero.mpr (fun p hp => by simpa using not_lt.mpr (hin p hp).1)
  have h2 : searchsorted lc.points (r + 360) = lc.points.length :=
    List.countP_eq_length.mpr (fun p hp => by simpa using (hin p hp).2)
  exact slr_caseC f r lc hl (by omega) (by omega)

/-- Witness for C3 at a concrete already-in-range field. -/
theorem set_longitude_range_already_in_range_witness :
    set_longitude_range (α := ℚ) (β := ℚ) ⟨some ⟨[10, 350], none⟩, [], [1, 2]⟩ 0 =
      ⟨some ⟨[10, 350], none⟩, [], [1, 2]⟩ :=
  set_longitude_range_already_in_range _ 0 ⟨[10, 350], none⟩ rfl (by decide)
    (by intro p hp; fin_cases hp <;> norm_num)

/-- Claim C8: when the field has no longitude coordinate,
`set_longitude_range` silently returns the field unchanged. -/
theorem set_longitude_range_no_lon_noop {α β : Type} (f : GriddedField α β) (r : ℚ)
    (h : f.lon = none) : set_longitude_range f r = f := by
  simp only [set_longitude_range, h]

/-- Witness for C8 at a concrete field without a longitude coordinate. -/
theorem set_longitude_range_no_lon_noop_witness :
    set_longitude_range (α := ℚ) (β := ℚ) ⟨none, [], [1, 2, 3]⟩ 5 =
      ⟨none, [], [1, 2, 3]⟩ :=
  set_longitude_range_no_lon_noop _ 5 rfl

example : _parse_partial_datetime (String.toList "2010-07-01") =
    some ⟨some 2010, some 7, some 1, none, none, none⟩ := by decide
example : _parse_partial_datetime (String.toList "a") = none := by decide
example : _parse_partial_datetime (String.toList "2010-07-01T13:27") =
    some ⟨some 2010, some 7, some 1, some 13, some 27, none⟩ := by decide
example : _parse_datetime_delta (String.toList "P1Y") = some ⟨1, 0, 0, 0, 0, 0⟩ := by decide
example : _parse_datetime_delta (String.toList "PT1H") = some ⟨0, 0, 0, 1, 0, 0⟩ := by decide
example : _parse_datetime_delta (String.toList "P1X") = none := by decide
example : _parse_datetime_delta (String.toList "P") = some ⟨0, 0, 0, 0, 0, 0⟩ := by decide
example : _parse_datetime_delta (String.toList "PT1H\n2M") = none := by decide
example : _parse_datetime_delta (String.toList "P1YT2M\n") =
    some ⟨1, 0, 0, 0, 2, 0⟩ := by decide
example : _parse_datetime_delta (String.toList "P1Y\n2M") =
    some ⟨1, 2, 0, 0, 0, 0⟩ := by decide

/-! ## Claims about the parsing layer -/

/-- Claim C4 (code bug): `parse_as_number_or_datetime` does not implement
the int/float/datetime/duration cascade with the uniform
`'<input>' is not a valid value.` error — its body reads the undefined
name `in_string`, so even the valid input `"5"` raises `NameError`, an
unhandled exception different from the uniform error. -/
theorem parse_as_number_or_datetime_raises_nameerror :
    parse_as_number_or_datetime (String.toList "5") =
      Except.error (PyExc.nameError "in_string") ∧
    PyExc.nameError "in_string" ≠
      PyExc.argumentTypeError "'5' is not a valid value." := by
  exact ⟨rfl, fun h => PyExc.noConfusion h⟩

/-- The date-half tokens of a duration string: what
`re.findall('[0-9]*[A-Z]', date_string)` produces inside
`_parse_datetime_delta`. -/
def durationDateTokens (cs : List Char) : List (List Char) :=
  match cs.map Char.toUpper with
  | 'P' :: body => findTokens (body.takeWhile (fun c => !isSep c))
  | _ => []

/-- The time-half tokens of a duration string: the tokens of the whole
remainder after the first separator.  On inputs the regex matches, the
time group it binds drops at most a trailing newline, which contributes no
token (`findTokens_of_splitOk`), so these are exactly the tokens
`re.findall('[0-9]*[A-Z]', time_string)` produces inside
`_parse_datetime_delta`. -/
def durationTimeTokens (cs : List Char) : List (List Char) :=
  match cs.map Char.toUpper with
  | 'P' :: body => findTokens ((body.dropWhile (fun c => !isSep c)).tail)
  | _ => []

/-- The last token in `toks` whose trailing letter is `u` (the one whose
value the overwriting loop leaves in the corresponding field). -/
def lastUnitTok (u : Char) (toks : List (List Char)) : Option (List Char) :=
  (toks.filter (fun t => decide (t.getLast? = some u))).getLast?

lemma lastUnitTok_cons_match (u : Char) (t : List Char) (toks : List (List Char))
    (hl : t.getLast? = some u) :
    lastUnitTok u (t :: toks) = some ((lastUnitTok u toks).getD t) := by
  unfold lastUnitTok
  rw [List.filter_cons, if_pos (show decide (t.getLast? = some u) = true by simp [hl])]
  cases hf : toks.filter (fun s => decide (s.getLast? = some u)) with
  | nil => simp
  | cons s l =>
    cases hgl : (s :: l).getLast? with
    | none => simp at hgl
    | some x => simp [hgl]

lemma lastUnitTok_cons_nomatch (u : Char) (t : List Char) (toks : List (List Char))
    (hl : t.getLast? ≠ some u) :
    lastUnitTok u (t :: toks) = lastUnitTok u toks := by
  unfold lastUnitTok
  rw [List.filter_cons, if_neg (show ¬ decide (t.getLast? = some u) = true by simp [hl])]

/-- The overwriting loop: when it succeeds, each field holds the integer
value of the last token with the matching unit letter, or its initial value
when no token carries that letter. -/
lemma dispatchTokens_some (u1 u2 u3 : Char) (h12 : u1 ≠ u2) (h13 : u1 ≠ u3)
    (h23 : u2 ≠ u3) :
    ∀ (toks : List (List Char)) (a b c : ℤ) (res : ℤ × ℤ × ℤ),
      dispatchTokens u1 u2 u3 toks a b c = some res →
      ((∀ s, lastUnitTok u1 toks = some s → pyInt s.dropLast = some res.1) ∧
        (lastUnitTok u1 toks = none → res.1 = a)) ∧
      ((∀ s, lastUnitTok u2 toks = some s → pyInt s.dropLast = some res.2.1) ∧
        (lastUnitTok u2 toks = none → res.2.1 = b)) ∧
      ((∀ s, lastUnitTok u3 toks = some s → pyInt s.dropLast = some res.2.2) ∧
        (lastUnitTok u3 toks = none → res.2.2 = c)) := by
  intro toks
  induction toks with
  | nil =>
    intro a b c res h
    simp only [dispatchTokens, Option.some_inj] at h
    subst h
    refine ⟨⟨?_, fun _ => rfl⟩, ⟨?_, fun _ => rfl⟩, ⟨?_, fun _ => rfl⟩⟩ <;>
      intro s hs <;> simp [lastUnitTok] at hs
  | cons t rest ih =>
    intro a b c res h
    simp only [dispatchTokens] at h
    cases hv : pyInt t.dropLast with
    | none => simp [hv] at h
    | some val =>
      cases hu : t.getLast? with
      | none => simp [hv, hu] at h
      | some u =>
        simp only [hv, hu] at h
        by_cases e1 : u = u1
        · subst e1
          rw [if_pos rfl] at h
          obtain ⟨⟨ih1s, ih1n⟩, ih2, ih3⟩ := ih val b c res h
          refine ⟨⟨?_, ?_⟩, ?_, ?_⟩
          · intro s hs
            rw [lastUnitTok_cons_match u t rest hu] at hs
            have hs2 := Option.some_inj.mp hs
            cases hrest : lastUnitTok u rest with
            | none =>
              rw [hrest] at hs2
              simp at hs2
              subst hs2
              rw [hv, ih1n hrest]
            | some s0 =>
              rw [hrest] at hs2
              simp at hs2
              subst hs2
              exact ih1s s0 hrest
          · intro hnone
            rw [lastUnitTok_cons_match u t rest hu] at hnone
            exact absurd hnone (by simp)
          · rw [lastUnitTok_cons_nomatch u2 t rest
              (by rw [hu]; intro e; exact h12 (Option.some_inj.mp e))]
            exact ih2
          · rw [lastUnitTok_cons_nomatch u3 t rest
              (by rw [hu]; intro e; exact h13 (Option.some_inj.mp e))]
            exact ih3
        · rw [if_neg e1] at h
          by_cases e2 : u = u2
          · subst e2
            rw [if_pos rfl] at h
            obtain ⟨ih1, ⟨ih2s, ih2n⟩, ih3⟩ := ih a val c res h
            refine ⟨?_, ⟨?_, ?_⟩, ?_⟩
            · rw [lastUnitTok_cons_nomatch u1 t rest
                (by rw [hu]; intro e; exact e1 (Option.some_inj.mp e))]
              exact ih1
            · intro s hs
              rw [lastUnitTok_cons_match u t rest hu] at hs
              have hs2 := Option.some_inj.mp hs
              cases hrest : lastUnitTok u rest with
              | none =>
                rw [hrest] at hs2
                simp at hs2
                subst hs2
                rw [hv, ih2n hrest]
              | some s0 =>
                rw [hrest] at hs2
                simp at hs2
                subst hs2
                exact ih2s s0 hrest
            · intro hnone
              rw [lastUnitTok_cons_match u t rest hu] at hnone
              exact absurd hnone (by simp)
            · rw [lastUnitTok_cons_nomatch u3 t rest
                (by rw [hu]; intro e; exact h23 (Option.some_inj.mp e))]
              exact ih3
          · rw [if_neg e2] at h
            by_cases e3 : u = u3
            · subst e3
              rw [if_pos rfl] at h
              obtain ⟨ih1, ih2, ⟨ih3s, ih3n⟩⟩ := ih a b val res h
              refine ⟨?_, ?_, ⟨?_, ?_⟩⟩
              · rw [lastUnitTok_cons_nomatch u1 t rest
                  (by rw [hu]; intro e; exact e1 (Option.some_inj.mp e))]
                exact ih1
              · rw [lastUnitTok_cons_nomatch u2 t rest
                  (by rw [hu]; intro e; exact e2 (Option.some_inj.mp e))]
                exact ih2
              · intro s hs
                rw [lastUnitTok_cons_match u t rest hu] at hs
                have hs2 := Option.some_inj.mp hs
                cases hrest : lastUnitTok u rest with
                | none =>
                  rw [hrest] at hs2
                  simp at hs2
                  subst hs2
                  rw [hv, ih3n hrest]
                | some s0 =>
                  rw [hrest] at hs2
                  simp at hs2
                  subst hs2
                  exact ih3s s0 hrest
              · intro hnone
                rw [lastUnitTok_cons_match u t rest hu] at hnone
                exact absurd hnone (by simp)
            · rw [if_neg e3] at h
              exact absurd h (by simp)

/-- The overwriting loop succeeds whenever every token has a convertible
integer part and an allowed unit letter. -/
lemma dispatchTokens_total (u1 u2 u3 : Char) :
    ∀ (toks : List (List Char)) (a b c : ℤ),
      (∀ t ∈ toks, (∃ v, pyInt t.dropLast = some v) ∧
        (t.getLast? = some u1 ∨ t.getLast? = some u2 ∨ t.getLast? = some u3)) →
      ∃ res, dispatchTokens u1 u2 u3 toks a b c = some res := by
  intro toks
  induction toks with
  | nil => intro a b c _; exact ⟨(a, b, c), rfl⟩
  | cons t rest ih =>
    intro a b c h
    obtain ⟨⟨v, hv⟩, hletter⟩ := h t (List.mem_cons_self t rest)
    have hrest : ∀ t ∈ rest, (∃ v, pyInt t.dropLast = some v) ∧
        (t.getLast? = some u1 ∨ t.getLast? = some u2 ∨ t.getLast? = some u3) :=
      fun s hs => h s (List.mem_cons_of_mem _ hs)
    rcases hletter with hu | hu | hu <;>
      simp only [dispatchTokens, hv, hu] <;>
      split_ifs <;>
      first
        | exact ih _ _ _ hrest
        | simp_all

/-- The overwriting loop fails as soon as some token carries a unit letter
outside the allowed set for its half. -/
lemma dispatchTokens_bad (u1 u2 u3 : Char) :
    ∀ (toks : List (List Char)) (a b c : ℤ),
      (∃ t ∈ toks, t.getLast? ≠ some u1 ∧ t.getLast? ≠ some u2 ∧
        t.getLast? ≠ some u3) →
      dispatchTokens u1 u2 u3 toks a b c = none := by
  intro toks
  induction toks with
  | nil => rintro a b c ⟨t, ht, _⟩; simp at ht
  | cons t rest ih =>
    rintro a b c ⟨s, hs, hbad⟩
    rcases List.mem_cons.mp hs with rfl | hs'
    · simp only [dispatchTokens]
      cases hv : pyInt s.dropLast with
      | none => rfl
      | some val =>
        cases hu : s.getLast? with
        | none => rfl
        | some u =>
          obtain ⟨b1, b2, b3⟩ := hbad
          rw [hu] at b1 b2 b3
          have n1 : u ≠ u1 := fun e => b1 (by rw [e])
          have n2 : u ≠ u2 := fun e => b2 (by rw [e])
          have n3 : u ≠ u3 := fun e => b3 (by rw [e])
          simp [n1, n2, n3]
    · simp only [dispatchTokens]
      cases hv : pyInt t.dropLast with
      | none => rfl
      | some val =>
        cases hu : t.getLast? with
        | none => rfl
        | some u =>
          dsimp only
          split_ifs <;> first | exact ih _ _ _ ⟨s, hs', hbad⟩ | rfl

/-- Unfolding lemma: a string whose uppercased form does not start with `P`
fails the duration regex. -/
lemma parse_delta_noP (cs : List Char)
    (h : ∀ body : List Char, cs.map Char.toUpper ≠ 'P' :: body) :
    _parse_datetime_delta cs = none := by
  unfold _parse_datetime_delta
  split
  · next body heq => exact absurd heq (h body)
  · rfl

/-- Unfolding lemma: on a string whose uppercased form is `P` followed by
`body`, when the regex matches, `_parse_datetime_delta` runs the two token
loops on the two halves (the time half stripped at its first newline). -/
lemma parse_delta_eq_of_upper (cs body : List Char)
    (h : cs.map Char.toUpper = 'P' :: body) (hok : durationSplitOk body = true) :
    _parse_datetime_delta cs =
      match procDate (findTokens (body.takeWhile (fun c => !isSep c))) 0 0 0 with
      | none => none
      | some (years, months, days) =>
        match procTime (findTokens
            (((body.dropWhile (fun c => !isSep c)).tail).takeWhile (fun c => c ≠ '\n')))
            0 0 0 with
        | none => none
        | some (hours, minutes, seconds) =>
          some (date_delta_creator years months days hours minutes seconds) := by
  unfold _parse_datetime_delta
  rw [h]
  split
  · next body2 heq =>
    injection heq with _ h2
    subst h2
    rw [if_pos hok]
  · next x hne => exact (hne body rfl).elim

/-- Unfolding lemma: on a string whose uppercased form is `P` followed by
`body`, when the regex does not match, the source raises `ValueError`. -/
lemma parse_delta_regex_fail (cs body : List Char)
    (h : cs.map Char.toUpper = 'P' :: body) (hbad : durationSplitOk body = false) :
    _parse_datetime_delta cs = none := by
  unfold _parse_datetime_delta
  rw [h]
  split
  · next body2 heq =>
    injection heq with _ h2
    subst h2
    rw [if_neg (by simp [hbad])]
  · rfl

/-- The head of a `dropWhile` result fails the predicate. -/
lemma dropWhile_head_not {α : Type} {p : α → Bool} :
    ∀ (l x : List α) (d : α), l.dropWhile p = d :: x → p d = false := by
  intro l
  induction l with
  | nil => intro x d h; exact absurd h (by simp)
  | cons a t ih =>
    intro x d h
    rw [List.dropWhile_cons] at h
    cases ha : p a with
    | true =>
      rw [ha, if_pos rfl] at h
      exact ih x d h
    | false =>
      rw [ha, if_neg (by simp)] at h
      injection h with h1 _
      rw [← h1]
      exact ha

/-- A trailing newline contributes no `[0-9]*[A-Z]` token: a token must
end in an uppercase letter and a newline can belong to none. -/
lemma findTokensAux_append_newline :
    ∀ (xs cur : List Char), findTokensAux cur (xs ++ ['\n']) = findTokensAux cur xs := by
  intro xs
  induction xs with
  | nil => intro cur; rfl
  | cons c t ih =>
    intro cur
    rw [List.cons_append]
    simp only [findTokensAux]
    split_ifs <;> simp [ih]

/-- On a regex-matching input, stripping the time half at its first
newline (which can only be a trailing one) leaves the token list
unchanged. -/
lemma findTokens_of_splitOk (body : List Char) (hok : durationSplitOk body = true) :
    findTokens (((body.dropWhile (fun c => !isSep c)).tail).takeWhile (fun c => c ≠ '\n')) =
      findTokens ((body.dropWhile (fun c => !isSep c)).tail) := by
  cases hrest : body.dropWhile (fun c => !isSep c) with
  | nil => rfl
  | cons s tl =>
    have hok2 : tl.length ≤ (tl.takeWhile (fun c => c ≠ '\n')).length + 1 := by
      unfold durationSplitOk at hok
      rw [hrest] at hok
      simpa using hok
    dsimp only [List.tail_cons]
    have hsplit : tl.takeWhile (fun c => c ≠ '\n') ++ tl.dropWhile (fun c => c ≠ '\n') =
        tl := List.takeWhile_append_dropWhile _ _
    have hlen2 : (tl.dropWhile (fun c => c ≠ '\n')).length ≤ 1 := by
      have hl := congrArg List.length hsplit
      rw [List.length_append] at hl
      omega
    cases hdrop : tl.dropWhile (fun c => c ≠ '\n') with
    | nil =>
      rw [hdrop, List.append_nil] at hsplit
      rw [hsplit]
    | cons d rest2 =>
      rw [hdrop] at hsplit hlen2
      have hr0 : rest2 = [] := by
        simp only [List.length_cons] at hlen2
        exact List.length_eq_zero.mp (by omega)
      subst hr0
      have hdn : d = '\n' := by
        have hpd := dropWhile_head_not tl [] d hdrop
        simpa using hpd
      subst hdn
      conv_rhs => rw [← hsplit]
      exact (findTokensAux_append_newline (tl.takeWhile (fun c => c ≠ '\n')) []).symm

lemma durationDateTokens_eq (cs body : List Char)
    (h : cs.map Char.toUpper = 'P' :: body) :
    durationDateTokens cs = findTokens (body.takeWhile (fun c => !isSep c)) := by
  unfold durationDateTokens
  rw [h]
  rfl

lemma durationTimeTokens_eq (cs body : List Char)
    (h : cs.map Char.toUpper = 'P' :: body) :
    durationTimeTokens cs = findTokens ((body.dropWhile (fun c => !isSep c)).tail) := by
  unfold durationTimeTokens
  rw [h]
  rfl

/-- Claim C7: the fractional-day conversion computes
`day + month*365.2425/12 + year*365.2425` days plus the exact
hour/minute/second contribution, all summed in seconds and divided by
86400; `"P1Y"` gives exactly `365.2425` days, `"PT1H"` gives
`delta(hour=1)` and `1/24` days, and `"P0Y0M0DT0H0M0S"` gives the zero
delta and `0` days. -/
theorem datetime_delta_float_days_spec :
    (∀ d : date_delta, _datetime_delta_to_float_days d =
      (d.day : ℚ) + (d.month : ℚ) * (3652425 / 10000) / 12 +
        (d.year : ℚ) * (3652425 / 10000) +
        ((d.hour : ℚ) * 3600 + (d.minute : ℚ) * 60 + (d.second : ℚ)) / 86400) ∧
    parse_datetimestr_delta_to_float_days (String.toList "P1Y") =
      some (3652425 / 10000) ∧
    _parse_datetime_delta (String.toList "PT1H") = some ⟨0, 0, 0, 1, 0, 0⟩ ∧
    parse_datetimestr_delta_to_float_days (String.toList "PT1H") = some (1 / 24) ∧
    _parse_datetime_delta (String.toList "P0Y0M0DT0H0M0S") = some ⟨0, 0, 0, 0, 0, 0⟩ ∧
    parse_datetimestr_delta_to_float_days (String.toList "P0Y0M0DT0H0M0S") =
      some 0 := by
  have h1 : _parse_datetime_delta (String.toList "P1Y") = some ⟨1, 0, 0, 0, 0, 0⟩ := by
    decide
  have h2 : _parse_datetime_delta (String.toList "PT1H") = some ⟨0, 0, 0, 1, 0, 0⟩ := by
    decide
  have h3 : _parse_datetime_delta (String.toList "P0Y0M0DT0H0M0S") =
      some ⟨0, 0, 0, 0, 0, 0⟩ := by decide
  refine ⟨?_, ?_, h2, ?_, h3, ?_⟩
  · intro d
    simp only [_datetime_delta_to_float_days]
    ring
  · rw [parse_datetimestr_delta_to_float_days, h1]
    norm_num [_datetime_delta_to_float_days]
  · rw [parse_datetimestr_delta_to_float_days, h2]
    norm_num [_datetime_delta_to_float_days]
  · rw [parse_datetimestr_delta_to_float_days, h3]
    norm_num [_datetime_delta_to_float_days]

/-! ## Helper lemmas for the partial-datetime split -/

lemma takeWhile_of_all {p : Char → Bool} :
    ∀ (l : List Char), (∀ x ∈ l, p x = true) →
      l.takeWhile p = l ∧ l.dropWhile p = [] := by
  intro l
  induction l with
  | nil => intro _; exact ⟨rfl, rfl⟩
  | cons a t ih =>
    intro h
    have ha := h a (List.mem_cons_self a t)
    obtain ⟨h1, h2⟩ := ih (fun x hx => h x (List.mem_cons_of_mem _ hx))
    rw [List.takeWhile_cons, List.dropWhile_cons]
    simp [ha, h1, h2]

lemma takeWhile_append_of_all {p : Char → Bool} :
    ∀ (xs ys : List Char), (∀ x ∈ xs, p x = true) →
      (xs ++ ys).takeWhile p = xs ++ ys.takeWhile p ∧
      (xs ++ ys).dropWhile p = ys.dropWhile p := by
  intro xs
  induction xs with
  | nil => intro ys _; exact ⟨rfl, rfl⟩
  | cons a t ih =>
    intro ys h
    have ha := h a (List.mem_cons_self a t)
    obtain ⟨h1, h2⟩ := ih ys (fun x hx => h x (List.mem_cons_of_mem _ hx))
    rw [List.cons_append, List.takeWhile_cons, List.dropWhile_cons]
    simp [ha, h1, h2]

lemma splitOnChar_of_not_mem {sep : Char} :
    ∀ {xs : List Char}, (∀ x ∈ xs, x ≠ sep) → splitOnChar sep xs = [xs] := by
  intro xs
  induction xs with
  | nil => intro _; rfl
  | cons c t ih =>
    intro h
    have hc := h c (List.mem_cons_self c t)
    simp only [splitOnChar]
    rw [if_neg hc, ih (fun x hx => h x (List.mem_cons_of_mem _ hx))]

lemma splitOnChar_append {sep : Char} :
    ∀ (xs ys : List Char), (∀ x ∈ xs, x ≠ sep) →
      splitOnChar sep (xs ++ sep :: ys) = xs :: splitOnChar sep ys := by
  intro xs
  induction xs with
  | nil =>
    intro ys _
    simp only [List.nil_append, splitOnChar]
    simp
  | cons c t ih =>
    intro ys h
    have hc := h c (List.mem_cons_self c t)
    rw [List.cons_append]
    simp only [splitOnChar]
    rw [if_neg hc, ih ys (fun x hx => h x (List.mem_cons_of_mem _ hx))]

lemma digit_not_sep {c : Char} (h : c.isDigit = true) : (!isSep c) = true := by
  have hT : c ≠ 'T' := fun e => by subst e; exact absurd h (by decide)
  have hSp : c ≠ ' ' := fun e => by subst e; exact absurd h (by decide)
  have hCo : c ≠ ':' := fun e => by subst e; exact absurd h (by decide)
  simp [isSep, hT, hSp, hCo]

lemma digit_ne_dash {c : Char} (h : c.isDigit = true) : c ≠ '-' :=
  fun e => by subst e; exact absurd h (by decide)

lemma digit_ne_colon {c : Char} (h : c.isDigit = true) : c ≠ ':' :=
  fun e => by subst e; exact absurd h (by decide)

/-- The partial-datetime regex split when the string contains no separator:
the match fails, so the whole string is the date part. -/
lemma pdtSplit_no_sep (cs : List Char) (h : ∀ c ∈ cs, (!isSep c) = true) :
    pdtSplit cs = (cs, []) := by
  simp only [pdtSplit]
  rw [(takeWhile_of_all cs h).1, (takeWhile_of_all cs h).2]
  rw [if_neg]
  intro hcon
  exact absurd hcon.2 (by simp)

/-- The partial-datetime regex split on `date ++ sep ++ time` with a
separator-free non-empty date part and a non-empty time part: the date part
is everything before the first separator and the time part is split on
`:`. -/
lemma pdtSplit_sep (ds tl : List Char) (sep : Char)
    (hd : ∀ c ∈ ds, (!isSep c) = true) (hne : ds ≠ []) (hsep : isSep sep = true)
    (htl : tl ≠ []) :
    pdtSplit (ds ++ sep :: tl) = (ds, splitOnChar ':' tl) := by
  simp only [pdtSplit]
  rw [(takeWhile_append_of_all ds (sep :: tl) hd).1,
    (takeWhile_append_of_all ds (sep :: tl) hd).2]
  rw [List.takeWhile_cons, List.dropWhile_cons]
  have hsep2 : (!isSep sep) = false := by simp [hsep]
  have hfalse : ¬ (false = true) := by simp
  rw [hsep2, if_neg hfalse, if_neg hfalse, List.append_nil, List.tail_cons]
  have hlen : 0 < tl.length := List.length_pos.mpr htl
  rw [if_pos ⟨hne, by simp only [List.length_cons]; omega⟩]

/-- Claim C5 as stated is false: on input `"a"` the split yields one date
component and no time components, so the claimed count condition does not
hold, yet the parser raises `ValueError` because `int('a')` fails. -/
theorem parse_partial_datetime_count_counterexample :
    _parse_partial_datetime (String.toList "a") = none ∧
    ¬ ((splitOnChar '-' (pdtSplit (String.toList "a")).1).length > 3 ∨
       (pdtSplit (String.toList "a")).2.length > 3 ∨
       ((splitOnChar '-' (pdtSplit (String.toList "a")).1).length < 3 ∧
        (pdtSplit (String.toList "a")).2.length > 0)) :=
  ⟨by decide, by decide⟩

/-- Claim C5 (amended): provided every date token and every time token
parses as an integer, `_parse_partial_datetime` fails exactly when there
are more than 3 date components, or more than 3 time components, or at
least one time component with fewer than 3 date components. -/
theorem parse_partial_datetime_fail_iff (cs : List Char) (dc tc : List ℤ)
    (hd : pyIntList (splitOnChar '-' (pdtSplit cs).1) = some dc)
    (ht : pyIntList (pdtSplit cs).2 = some tc) :
    _parse_partial_datetime cs = none ↔
      (dc.length > 3 ∨ tc.length > 3 ∨ (dc.length < 3 ∧ tc.length > 0)) := by
  simp only [_parse_partial_datetime]
  rw [hd, ht]
  by_cases hcond : dc.length > 3 ∨ tc.length > 3 ∨ (dc.length < 3 ∧ tc.length > 0)
  · simp [hcond]
  · simp [hcond]

/-- Witness for C5 (amended): `"1:2"` has one time component but only one
date component, and is rejected. -/
theorem parse_partial_datetime_fail_iff_witness :
    _parse_partial_datetime (String.toList "1:2") = none :=
  (parse_partial_datetime_fail_iff (String.toList "1:2") [1] [2] (by decide)
    (by decide)).mpr (by decide)

/-- Claim C6: for the valid partial-date shapes `Y-M-D`, `Y-M-D:H`,
`Y-M-D:H:M` and `Y-M-DTH:M:S` built from non-empty digit tokens, the parser
returns exactly the supplied components positionally, with trailing
components left unspecified. -/
theorem parse_partial_datetime_shapes
    (sY sM sD sH sMi sS : List Char) (vY vM vD vH vMi vS : ℤ)
    (hY : sY ≠ [] ∧ (∀ c ∈ sY, c.isDigit = true) ∧ pyInt sY = some vY)
    (hM : sM ≠ [] ∧ (∀ c ∈ sM, c.isDigit = true) ∧ pyInt sM = some vM)
    (hD : sD ≠ [] ∧ (∀ c ∈ sD, c.isDigit = true) ∧ pyInt sD = some vD)
    (hH : sH ≠ [] ∧ (∀ c ∈ sH, c.isDigit = true) ∧ pyInt sH = some vH)
    (hMi : sMi ≠ [] ∧ (∀ c ∈ sMi, c.isDigit = true) ∧ pyInt sMi = some vMi)
    (hS : sS ≠ [] ∧ (∀ c ∈ sS, c.isDigit = true) ∧ pyInt sS = some vS) :
    _parse_partial_datetime (sY ++ '-' :: (sM ++ '-' :: sD)) =
      some ⟨some vY, some vM, some vD, none, none, none⟩ ∧
    _parse_partial_datetime (sY ++ '-' :: (sM ++ '-' :: (sD ++ ':' :: sH))) =
      some ⟨some vY, some vM, some vD, some vH, none, none⟩ ∧
    _parse_partial_datetime (sY ++ '-' :: (sM ++ '-' :: (sD ++ ':' :: (sH ++ ':' :: sMi)))) =
      some ⟨some vY, some vM, some vD, some vH, some vMi, none⟩ ∧
    _parse_partial_datetime
        (sY ++ '-' :: (sM ++ '-' :: (sD ++ 'T' :: (sH ++ ':' :: (sMi ++ ':' :: sS))))) =
      some ⟨some vY, some vM, some vD, some vH, some vMi, some vS⟩ := by
  obtain ⟨hYne, hYd, hYv⟩ := hY
  obtain ⟨hMne, hMd, hMv⟩ := hM
  obtain ⟨hDne, hDd, hDv⟩ := hD
  obtain ⟨hHne, hHd, hHv⟩ := hH
  obtain ⟨hMine, hMid, hMiv⟩ := hMi
  obtain ⟨hSne, hSd, hSv⟩ := hS
  have hallD : ∀ c ∈ sY ++ '-' :: (sM ++ '-' :: sD), (!isSep c) = true := by
    intro c hc
    rcases List.mem_append.mp hc with h | h
    · exact digit_not_sep (hYd c h)
    · rcases List.mem_cons.mp h with rfl | h
      · decide
      · rcases List.mem_append.mp h with h | h
        · exact digit_not_sep (hMd c h)
        · rcases List.mem_cons.mp h with rfl | h
          · decide
          · exact digit_not_sep (hDd c h)
  have hDne2 : sY ++ '-' :: (sM ++ '-' :: sD) ≠ [] := by
    intro e
    rw [List.append_eq_nil] at e
    exact hYne e.1
  have hsplitDash : splitOnChar '-' (sY ++ '-' :: (sM ++ '-' :: sD)) = [sY, sM, sD] := by
    rw [splitOnChar_append sY _ (fun c hc => digit_ne_dash (hYd c hc)),
      splitOnChar_append sM _ (fun c hc => digit_ne_dash (hMd c hc)),
      splitOnChar_of_not_mem (fun c hc => digit_ne_dash (hDd c hc))]
  have hdcl : pyIntList [sY, sM, sD] = some [vY, vM, vD] := by
    simp [pyIntList, hYv, hMv, hDv]
  refine ⟨?_, ?_, ?_, ?_⟩
  · simp only [_parse_partial_datetime]
    rw [pdtSplit_no_sep _ hallD]
    simp only [hsplitDash, hdcl]
    simp [pyIntList, PartialDateTime.ofComponents, List.get?]
  · have hassoc : sY ++ '-' :: (sM ++ '-' :: (sD ++ ':' :: sH)) =
        (sY ++ '-' :: (sM ++ '-' :: sD)) ++ ':' :: sH := by simp
    simp only [_parse_partial_datetime, hassoc,
      pdtSplit_sep (sY ++ '-' :: (sM ++ '-' :: sD)) sH ':' hallD hDne2 (by decide) hHne,
      hsplitDash, hdcl,
      splitOnChar_of_not_mem (fun c hc => digit_ne_colon (hHd c hc))]
    simp [pyIntList, hHv, PartialDateTime.ofComponents, List.get?]
  · have hassoc : sY ++ '-' :: (sM ++ '-' :: (sD ++ ':' :: (sH ++ ':' :: sMi))) =
        (sY ++ '-' :: (sM ++ '-' :: sD)) ++ ':' :: (sH ++ ':' :: sMi) := by simp
    have htime : splitOnChar ':' (sH ++ ':' :: sMi) = [sH, sMi] := by
      rw [splitOnChar_append sH _ (fun c hc => digit_ne_colon (hHd c hc)),
        splitOnChar_of_not_mem (fun c hc => digit_ne_colon (hMid c hc))]
    simp only [_parse_partial_datetime, hassoc,
      pdtSplit_sep (sY ++ '-' :: (sM ++ '-' :: sD)) (sH ++ ':' :: sMi) ':' hallD hDne2
        (by decide) (by simp),
      htime, hsplitDash, hdcl]
    simp [pyIntList, hHv, hMiv, PartialDateTime.ofComponents, List.get?]
  · have hassoc : sY ++ '-' :: (sM ++ '-' :: (sD ++ 'T' :: (sH ++ ':' :: (sMi ++ ':' :: sS)))) =
        (sY ++ '-' :: (sM ++ '-' :: sD)) ++ 'T' :: (sH ++ ':' :: (sMi ++ ':' :: sS)) := by
      simp
    have htime : splitOnChar ':' (sH ++ ':' :: (sMi ++ ':' :: sS)) = [sH, sMi, sS] := by
      rw [splitOnChar_append sH _ (fun c hc => digit_ne_colon (hHd c hc)),
        splitOnChar_append sMi _ (fun c hc => digit_ne_colon (hMid c hc)),
        splitOnChar_of_not_mem (fun c hc => digit_ne_colon (hSd c hc))]
    simp only [_parse_partial_datetime, hassoc,
      pdtSplit_sep (sY ++ '-' :: (sM ++ '-' :: sD)) (sH ++ ':' :: (sMi ++ ':' :: sS)) 'T'
        hallD hDne2 (by decide) (by simp),
      htime, hsplitDash, hdcl]
    simp [pyIntList, hHv, hMiv, hSv, PartialDateTime.ofComponents, List.get?]

/-- Witness for C6 at concrete digit tokens. -/
theorem parse_partial_datetime_shapes_witness :
    _parse_partial_datetime (String.toList "2000-07-01T13:27:59") =
      some ⟨some 2000, some 7, some 1, some 13, some 27, some 59⟩ := by
  have h := (parse_partial_datetime_shapes (String.toList "2000") (String.toList "07")
    (String.toList "01") (String.toList "13") (String.toList "27") (String.toList "59")
    2000 7 1 13 27 59 (by decide) (by decide) (by decide) (by decide) (by decide)
    (by decide)).2.2.2
  exact h

/-- Claim C9: when the duration parser succeeds, each `date_delta` field
holds the integer value of the LAST token with that unit letter in its half
(later duplicates silently overwrite earlier ones), or `0` when no token
carries the unit; and a token whose unit letter is outside the allowed set
of its half always makes the parser fail, e.g. `"P1X"`. -/
theorem parse_datetime_delta_overwrite_and_bad_unit :
    (∀ (cs : List Char) (delta : date_delta), _parse_datetime_delta cs = some delta →
      ((∀ t, lastUnitTok 'Y' (durationDateTokens cs) = some t →
          pyInt t.dropLast = some delta.year) ∧
        (lastUnitTok 'Y' (durationDateTokens cs) = none → delta.year = 0)) ∧
      ((∀ t, lastUnitTok 'M' (durationDateTokens cs) = some t →
          pyInt t.dropLast = some delta.month) ∧
        (lastUnitTok 'M' (durationDateTokens cs) = none → delta.month = 0)) ∧
      ((∀ t, lastUnitTok 'D' (durationDateTokens cs) = some t →
          pyInt t.dropLast = some delta.day) ∧
        (lastUnitTok 'D' (durationDateTokens cs) = none → delta.day = 0)) ∧
      ((∀ t, lastUnitTok 'H' (durationTimeTokens cs) = some t →
          pyInt t.dropLast = some delta.hour) ∧
        (lastUnitTok 'H' (durationTimeTokens cs) = none → delta.hour = 0)) ∧
      ((∀ t, lastUnitTok 'M' (durationTimeTokens cs) = some t →
          pyInt t.dropLast = some delta.minute) ∧
        (lastUnitTok 'M' (durationTimeTokens cs) = none → delta.minute = 0)) ∧
      ((∀ t, lastUnitTok 'S' (durationTimeTokens cs) = some t →
          pyInt t.dropLast = some delta.second) ∧
        (lastUnitTok 'S' (durationTimeTokens cs) = none → delta.second = 0))) ∧
    (∀ cs : List Char,
      ((∃ t ∈ durationDateTokens cs, t.getLast? ≠ some 'Y' ∧ t.getLast? ≠ some 'M' ∧
          t.getLast? ≠ some 'D') ∨
        (∃ t ∈ durationTimeTokens cs, t.getLast? ≠ some 'H' ∧ t.getLast? ≠ some 'M' ∧
          t.getLast? ≠ some 'S')) →
      _parse_datetime_delta cs = none) ∧
    _parse_datetime_delta (String.toList "P1X") = none := by
  refine ⟨?_, ?_, by decide⟩
  · intro cs delta h
    cases hup : cs.map Char.toUpper with
    | nil =>
      rw [parse_delta_noP cs (by simp [hup])] at h
      exact absurd h (by simp)
    | cons c body =>
      by_cases hc : c = 'P'
      · subst hc
        have hok : durationSplitOk body = true := by
          cases hok2 : durationSplitOk body with
          | true => rfl
          | false =>
            rw [parse_delta_regex_fail cs body hup hok2] at h
            exact absurd h (by simp)
        rw [parse_delta_eq_of_upper cs body hup hok,
          findTokens_of_splitOk body hok] at h
        rw [durationDateTokens_eq cs body hup, durationTimeTokens_eq cs body hup]
        cases hd : procDate (findTokens (body.takeWhile (fun c => !isSep c))) 0 0 0 with
        | none => rw [hd] at h; exact absurd h (by simp)
        | some ymd =>
          obtain ⟨y, m, d⟩ := ymd
          rw [hd] at h
          dsimp only at h
          cases ht : procTime (findTokens ((body.dropWhile (fun c => !isSep c)).tail))
              0 0 0 with
          | none => rw [ht] at h; exact absurd h (by simp)
          | some hms =>
            obtain ⟨hh, mm, ss⟩ := hms
            rw [ht] at h
            dsimp only at h
            injection h with h2
            subst h2
            have HD := dispatchTokens_some 'Y' 'M' 'D' (by decide) (by decide)
              (by decide) _ 0 0 0 (y, m, d) hd
            have HT := dispatchTokens_some 'H' 'M' 'S' (by decide) (by decide)
              (by decide) _ 0 0 0 (hh, mm, ss) ht
            exact ⟨HD.1, HD.2.1, HD.2.2, HT.1, HT.2.1, HT.2.2⟩
      · rw [parse_delta_noP cs
          (fun body2 e => by rw [hup] at e; injection e with e1 _; exact hc e1)] at h
        exact absurd h (by simp)
  · intro cs hbad
    cases hup : cs.map Char.toUpper with
    | nil => exact parse_delta_noP cs (by simp [hup])
    | cons c body =>
      by_cases hc : c = 'P'
      · subst hc
        cases hok : durationSplitOk body with
        | false => exact parse_delta_regex_fail cs body hup hok
        | true =>
          rw [parse_delta_eq_of_upper cs body hup hok, findTokens_of_splitOk body hok]
          rw [durationDateTokens_eq cs body hup, durationTimeTokens_eq cs body hup] at hbad
          rcases hbad with hbd | hbt
          · have hnone : procDate (findTokens (body.takeWhile (fun c => !isSep c))) 0 0 0 =
                none := dispatchTokens_bad 'Y' 'M' 'D' _ 0 0 0 hbd
            rw [hnone]
          · have hnone : procTime (findTokens ((body.dropWhile (fun c => !isSep c)).tail))
                0 0 0 = none := dispatchTokens_bad 'H' 'M' 'S' _ 0 0 0 hbt
            cases hd : procDate (findTokens (body.takeWhile (fun c => !isSep c))) 0 0 0 with
            | none => rfl
            | some ymd =>
              obtain ⟨y, m, d⟩ := ymd
              dsimp only
              rw [hnone]
      · exact parse_delta_noP cs
          (fun body2 e => by rw [hup] at e; injection e with e1 _; exact hc e1)

/-- Witness for C9: `"P1Y2Y"` parses with the later `2Y` winning for the
year field, and `"P1H"` (an `H` token in the date half) fails. -/
theorem parse_datetime_delta_overwrite_witness :
    _parse_datetime_delta (String.toList "P1Y2Y") = some ⟨2, 0, 0, 0, 0, 0⟩ ∧
    (∀ t, lastUnitTok 'Y' (durationDateTokens (String.toList "P1Y2Y")) = some t →
      pyInt t.dropLast = some (2 : ℤ)) ∧
    _parse_datetime_delta (String.toList "P1H") = none :=
  ⟨by decide,
    fun t ht =>
      ((parse_datetime_delta_overwrite_and_bad_unit.1 (String.toList "P1Y2Y")
        ⟨2, 0, 0, 0, 0, 0⟩ (by decide)).1).1 t ht,
    parse_datetime_delta_overwrite_and_bad_unit.2.1 (String.toList "P1H")
      (Or.inl (by decide))⟩

/-- Whether the duration regex itself fails to match: the string starts
with `P` (after uppercasing) but a newline after the first separator is
not the final character, so `.+` and `$` cannot cover the remainder. -/
def durationRegexFails (cs : List Char) : Bool :=
  match cs.map Char.toUpper with
  | 'P' :: body => !durationSplitOk body
  | _ => false

lemma durationRegexFails_eq (cs body : List Char)
    (h : cs.map Char.toUpper = 'P' :: body) :
    durationRegexFails cs = !durationSplitOk body := by
  unfold durationRegexFails
  rw [h]
  rfl

/-- Claim C10 as stated is false: `"PT1H\n2M"` starts with `P` and both
halves carry only well-formed `<int><unit>` tokens, yet the duration regex
does not match (the newline after the separator is not the final
character, and `.` does not match a newline) and the parser raises
`ValueError`. -/
theorem parse_datetime_delta_newline_counterexample :
    _parse_datetime_delta (String.toList "PT1H\n2M") = none ∧
    (String.toList "PT1H\n2M").map Char.toUpper = 'P' :: String.toList "T1H\n2M" ∧
    (∀ t ∈ durationDateTokens (String.toList "PT1H\n2M"), pyInt t.dropLast ≠ none ∧
      (t.getLast? = some 'Y' ∨ t.getLast? = some 'M' ∨ t.getLast? = some 'D')) ∧
    (∀ t ∈ durationTimeTokens (String.toList "PT1H\n2M"), pyInt t.dropLast ≠ none ∧
      (t.getLast? = some 'H' ∨ t.getLast? = some 'M' ∨ t.getLast? = some 'S')) := by
  decide

/-- Claim C10 (amended): the duration parser accepts the bare `"P"` and
`"PT"` (returning the all-zero delta) even though they contain no tokens;
a failure requires a missing leading `P` (after uppercasing), a regex
match failure (a newline after the first separator that is not the final
character), or a malformed token — unconvertible integer part or
disallowed unit letter — in one of the two halves. -/
theorem parse_datetime_delta_accepts_bare_p :
    _parse_datetime_delta (String.toList "P") = some ⟨0, 0, 0, 0, 0, 0⟩ ∧
    _parse_datetime_delta (String.toList "PT") = some ⟨0, 0, 0, 0, 0, 0⟩ ∧
    ∀ cs : List Char, _parse_datetime_delta cs = none →
      (∀ body : List Char, cs.map Char.toUpper ≠ 'P' :: body) ∨
      durationRegexFails cs = true ∨
      (∃ t ∈ durationDateTokens cs, pyInt t.dropLast = none ∨
        (t.getLast? ≠ some 'Y' ∧ t.getLast? ≠ some 'M' ∧ t.getLast? ≠ some 'D')) ∨
      (∃ t ∈ durationTimeTokens cs, pyInt t.dropLast = none ∨
        (t.getLast? ≠ some 'H' ∧ t.getLast? ≠ some 'M' ∧ t.getLast? ≠ some 'S')) := by
  refine ⟨by decide, by decide, ?_⟩
  intro cs h
  by_cases hP : ∀ body : List Char, cs.map Char.toUpper ≠ 'P' :: body
  · exact Or.inl hP
  · push_neg at hP
    obtain ⟨body, hup⟩ := hP
    cases hok : durationSplitOk body with
    | false =>
      refine Or.inr (Or.inl ?_)
      rw [durationRegexFails_eq cs body hup, hok]
      rfl
    | true =>
      refine Or.inr (Or.inr ?_)
      by_contra hno
      push_neg at hno
      obtain ⟨hnd, hnt⟩ := hno
      have hdgood : ∀ t ∈ durationDateTokens cs, (∃ v, pyInt t.dropLast = some v) ∧
          (t.getLast? = some 'Y' ∨ t.getLast? = some 'M' ∨ t.getLast? = some 'D') := by
        intro t ht
        have h2 := hnd t ht
        constructor
        · cases hpi : pyInt t.dropLast with
          | none => exact absurd hpi (by tauto)
          | some v => exact ⟨v, rfl⟩
        · tauto
      have htgood : ∀ t ∈ durationTimeTokens cs, (∃ v, pyInt t.dropLast = some v) ∧
          (t.getLast? = some 'H' ∨ t.getLast? = some 'M' ∨ t.getLast? = some 'S') := by
        intro t ht
        have h2 := hnt t ht
        constructor
        · cases hpi : pyInt t.dropLast with
          | none => exact absurd hpi (by tauto)
          | some v => exact ⟨v, rfl⟩
        · tauto
      rw [durationDateTokens_eq cs body hup] at hdgood
      rw [durationTimeTokens_eq cs body hup] at htgood
      obtain ⟨resD, hresD⟩ := dispatchTokens_total 'Y' 'M' 'D' _ 0 0 0 hdgood
      obtain ⟨resT, hresT⟩ := dispatchTokens_total 'H' 'M' 'S' _ 0 0 0 htgood
      have hresD2 : procDate (findTokens (body.takeWhile (fun c => !isSep c))) 0 0 0 =
          some resD := hresD
      have hresT2 : procTime (findTokens ((body.dropWhile (fun c => !isSep c)).tail))
          0 0 0 = some resT := hresT
      obtain ⟨y, m, d⟩ := resD
      obtain ⟨hh, mm, ss⟩ := resT
      rw [parse_delta_eq_of_upper cs body hup hok, findTokens_of_splitOk body hok,
        hresD2] at h
      dsimp only at h
      rw [hresT2] at h
      dsimp only at h
      exact absurd h (by simp)

/-- Witness for C10 (amended): `"PY"` fails, and the theorem locates a
malformed token (the `Y` token with an empty integer part) in its date
half. -/
theorem parse_datetime_delta_accepts_bare_p_witness :
    _parse_datetime_delta (String.toList "PY") = none ∧
    ((∀ body : List Char, (String.toList "PY").map Char.toUpper ≠ 'P' :: body) ∨
      durationRegexFails (String.toList "PY") = true ∨
      (∃ t ∈ durationDateTokens (String.toList "PY"), pyInt t.dropLast = none ∨
        (t.getLast? ≠ some 'Y' ∧ t.getLast? ≠ some 'M' ∧ t.getLast? ≠ some 'D')) ∨
      (∃ t ∈ durationTimeTokens (String.toList "PY"), pyInt t.dropLast = none ∨
        (t.getLast? ≠ some 'H' ∧ t.getLast? ≠ some 'M' ∧ t.getLast? ≠ some 'S'))) :=
  ⟨by decide,
    parse_datetime_delta_accepts_bare_p.2.2 (String.toList "PY") (by decide)⟩

end CIS
